import Mathlib

/-!
# Verification of the Credit-Guardian tagging-and-retrieval pipeline

Shallow embedding of the core pipeline of the repository:

* `advanced_tagging.py` — heuristic Bulgarian stemming, TF-IDF tag scoring,
  full tag-table rebuild;
* `create_ingestion_view.py` — materialisation of the ingestion table with a
  primary tag per article;
* `generate_embeddings.py` — pending-article selection by content hash and
  the batch embedding loop;
* `semantic_search.py` — cosine similarity and brute-force nearest-neighbour
  search.

Modelling conventions:

* Python strings are modelled at character granularity (`List Char` /
  `String`); Python slices, `len`, `endswith` act on characters, as do the
  Lean counterparts used here.
* Python floats are modelled by `ℚ`.  The two transcendental library
  functions that the code calls, `math.log` and `math.sqrt`, are taken as
  explicit function parameters (`L`, `sqrtQ`) of the definitions that use
  them; every theorem below either holds for an arbitrary such parameter or
  states the hypotheses on it that it needs.
* The SHA-256 content hash (`hashlib.sha256(...).hexdigest()`) is taken as a
  function parameter `H : String → String`.
* `sqlite3` tables are modelled as lists of rows; the `article_embeddings`
  table, whose `article_id` column is `UNIQUE`, is modelled as a partial map
  `Nat → Option EmbRecord`, which is exactly what `INSERT OR REPLACE` keyed
  on `article_id` maintains.
* Python `list.sort(key=k, reverse=True)` and `sorted(..., reverse=True)`
  are stable sorts, descending in the key; they are modelled by
  `List.insertionSort` (also stable) with the relation
  `fun a b => k b ≤ k a`.
-/

/-! ## `advanced_tagging.py` : stemming and tokenisation -/

/-- Python `str.lower` restricted to the alphabets this pipeline touches:
ASCII `A`-`Z` and the basic Cyrillic block `А`-`Я` (U+0410–U+042F) map to
their lowercase forms, everything else is unchanged. -/
def pyLower (c : Char) : Char :=
  if 'A' ≤ c ∧ c ≤ 'Z' then Char.ofNat (c.toNat + 32)
  else if 0x410 ≤ c.toNat ∧ c.toNat ≤ 0x42F then Char.ofNat (c.toNat + 32)
  else c

/-- Membership in the character class `[а-я]` (lowercase Cyrillic
U+0430–U+044F) used by the stemmer's edge-stripping regex. -/
def isBgLetter (c : Char) : Bool :=
  decide (0x430 ≤ c.toNat ∧ c.toNat ≤ 0x44F)

/-- Membership in the token pattern class `[а-яА-Я]` (U+0410–U+044F). -/
def isCyrLetter (c : Char) : Bool :=
  decide (0x410 ≤ c.toNat ∧ c.toNat ≤ 0x44F)

/-- `re.sub(r'^[^а-я]+|[^а-я]+$', '', w)`: drop the maximal run of
non-`[а-я]` characters at each end of the word. -/
def stripNonLetterEdges (l : List Char) : List Char :=
  ((l.dropWhile (fun c => !isBgLetter c)).reverse.dropWhile
      (fun c => !isBgLetter c)).reverse

/-- The fixed ranked suffix list `SUFFIXES` of `advanced_tagging.py`,
in declaration order (duplicates included, as in the source). -/
def SUFFIXES : List String :=
  ["ите","ият","ията","овете","евете","ове","еве","ия","ът","ят","та","то",
   "те","ените","ения","ени","ността","ност","чески","ов","ев","ите","ки",
   "ски","ско","ни","на","ен","ий","ия","а","и"]

/-- `sorted(SUFFIXES, key=len, reverse=True)`: stable sort of the suffix
list, longest first. -/
def sortedSuffixes : List String :=
  SUFFIXES.insertionSort (fun a b => b.length ≤ a.length)

/-- The normalisation prefix of `stem`: `word.lower()`, then
`replace('й','и')`, then strip non-letter edges. -/
def normalizeWord (word : String) : List Char :=
  stripNonLetterEdges
    ((word.toList.map pyLower).map (fun c => if c = 'й' then 'и' else c))

/-- `w.endswith(suf) and len(w) - len(suf) >= 3`: the condition under which
the stemmer strips suffix `suf` from the normalised word `w`. -/
def suffixMatches (w : List Char) (suf : String) : Bool :=
  suf.toList.isSuffixOf w && decide (suf.length + 3 ≤ w.length)

/-- `stem` of `advanced_tagging.py`: normalise, then strip the first
suffix (in longest-first, declaration-order-stable order) that matches
with at least 3 characters left, if any. -/
def stem (word : String) : String :=
  let w := normalizeWord word
  match sortedSuffixes.find? (fun suf => suffixMatches w suf) with
  | some suf => String.mk (w.take (w.length - suf.length))
  | none => String.mk w

/-- Helper for `TOKEN_PATTERN.findall`: collect maximal runs of Cyrillic
letters, with `acc` holding the (reversed) run currently being read. -/
def cyrRunsAux : List Char → List Char → List String
  | [], acc => if acc.isEmpty then [] else [String.mk acc.reverse]
  | c :: cs, acc =>
    if isCyrLetter c then cyrRunsAux cs (c :: acc)
    else if acc.isEmpty then cyrRunsAux cs []
    else String.mk acc.reverse :: cyrRunsAux cs []

/-- `tokenize` of `advanced_tagging.py`:
`[stem(t) for t in TOKEN_PATTERN.findall(text.lower())]`. -/
def tokenize (text : String) : List String :=
  (cyrRunsAux (text.toList.map pyLower) []).map stem

/-- `RAW_TAG_KEYWORDS` of `advanced_tagging.py`, in declaration order. -/
def RAW_TAG_KEYWORDS : List (String × List String) :=
  [("labor", ["труд", "работник", "работодател", "възнаграждение", "заплата", "отпуск"]),
   ("social_security", ["осигуряване", "пенсия", "инвалидност", "осигурителен", "болничен"]),
   ("tax_procedure", ["данък", "данъчен", "декларация", "ревизия", "обжалване"]),
   ("civil_procedure", ["иск", "заповед", "съд", "дело", "процедура", "жалба"]),
   ("penal_substantive", ["престъпление", "наказание", "лишаване", "свобода", "глоба", "умисъл"]),
   ("criminal_procedure", ["досъдебно", "обвиняем", "разследване", "съдебно", "производство", "арест"]),
   ("family", ["брак", "съпруг", "родител", "осиновяване", "семейство", "издръжка"]),
   ("maritime", ["кораб", "плаване", "морско", "пристанище", "капитан"]),
   ("private_international_law", ["приложимо", "колизия", "международно", "частно", "компетентност"]),
   ("insurance", ["застраховка", "застраховател", "премия", "застрахован", "щета"]),
   ("elections", ["избор", "кампания", "гласуване", "секция", "мандат"]),
   ("ethics_lawyer", ["адвокат", "етичен", "поведение", "достойно"]),
   ("ethics_medical", ["дентална", "фармацевт", "медицинска", "етика"])]

/-- `build_tag_vocab`: per tag, the set of stemmed keywords (a Python set;
modelled as a deduplicated list — tag scores below sum over it, and `ℚ`
addition is commutative, so the set's iteration order is irrelevant). -/
def build_tag_vocab : List (String × List String) :=
  RAW_TAG_KEYWORDS.map (fun p => (p.1, (p.2.map stem).dedup))

example : stem "" = "" := by decide
example : stem "щета" = "щет" := by decide
example : stem "данък" = "данък" := by decide
example : tokenize "данък иск" = ["данък", "иск"] := by decide

/-! ## `advanced_tagging.py` : TF-IDF scoring and the tag-table rebuild

An article corpus is a list of `(id, content)` rows, as returned by
`SELECT id, content FROM legal_articles`.
-/

/-- The tokens of one article: `tokenize(content[:12000])` (the Python
slice takes the first 12000 characters). -/
def docTokens (content : String) : List String :=
  tokenize (String.mk (content.toList.take 12000))

/-- Document frequency of a stemmed token: the loop
`for aid, content in articles: ... unique = set(toks); for u in unique:
df_counter[u] += 1` counts, per corpus row, whether the token occurs in
that row's token list. -/
def df (arts : List (Nat × String)) (t : String) : Nat :=
  (arts.filter (fun a => (docTokens a.2).contains t)).length

/-- Smoothed inverse document frequency:
`idf = log((N + 1) / (df + 1)) + 1`, with `math.log` abstracted as `L`. -/
def idf (L : ℚ → ℚ) (N dfv : Nat) : ℚ :=
  L (((N : ℚ) + 1) / ((dfv : ℚ) + 1)) + 1

/-- The scoring loop for one tag on one article: for every vocabulary token
present in the term-frequency table, add `(1 + log(tf)) * idf`. -/
def tagScore (L : ℚ → ℚ) (arts : List (Nat × String)) (toks : List String)
    (vocab : List String) : ℚ :=
  vocab.foldl
    (fun score token =>
      if toks.count token ≠ 0 then
        score + (1 + L ((toks.count token : ℚ))) * idf L arts.length (df arts token)
      else score)
    0

/-- The per-article accumulation loop: every tag whose score is strictly
positive is appended, in the declaration order of `RAW_TAG_KEYWORDS`. -/
def articleTagsFull (L : ℚ → ℚ) (arts : List (Nat × String))
    (toks : List String) : List (String × ℚ) :=
  build_tag_vocab.filterMap
    (fun tv =>
      let s := tagScore L arts toks tv.2
      if 0 < s then some (tv.1, s) else none)

/-- `tag_scores[aid].sort(key=lambda x: x[1], reverse=True)` followed by
`tag_scores[aid] = tag_scores[aid][:5]`: stable sort by score descending,
then keep the first five entries. -/
def articleTags (L : ℚ → ℚ) (arts : List (Nat × String))
    (toks : List String) : List (String × ℚ) :=
  ((articleTagsFull L arts toks).insertionSort
      (fun a b => b.2 ≤ a.2)).take 5

/-- Python-dict insert: overwrite the value at an existing key in place,
otherwise append at the end (dicts preserve first-insertion order). -/
def dictInsert {α : Type} (k : Nat) (v : α) :
    List (Nat × α) → List (Nat × α)
  | [] => [(k, v)]
  | (k', v') :: rest =>
    if k' = k then (k', v) :: rest else (k', v') :: dictInsert k v rest

/-- Build a Python dict from a list of key/value pairs, in order. -/
def toDict {α : Type} (l : List (Nat × α)) : List (Nat × α) :=
  l.foldl (fun d p => dictInsert p.1 p.2 d) []

/-- `article_tokens`: the dict `aid -> tokenize(content[:12000])` filled in
corpus order. -/
def articleTokens (arts : List (Nat × String)) : List (Nat × List String) :=
  toDict (arts.map (fun a => (a.1, docTokens a.2)))

/-- One row of `legal_article_tags` as written by the rebuild. -/
structure TagRow where
  article_id : Nat
  tag : String
  score : ℚ
  created_at : Nat
  updated_at : Nat
  deriving Repr, DecidableEq

/-- The full set of tag rows the rebuild inserts: for every entry of
`article_tokens`, the article's (top-5, sorted) tag/score pairs, stamped
with the single `now = datetime.utcnow()` taken before the insert loop. -/
def computeTagRows (L : ℚ → ℚ) (now : Nat)
    (arts : List (Nat × String)) : List TagRow :=
  (articleTokens arts).flatMap
    (fun p => (articleTags L arts p.2).map
      (fun ts => ⟨p.1, ts.1, ts.2, now, now⟩))

/-- The database state `main()` of `advanced_tagging.py` reads and writes:
the article corpus and the `legal_article_tags` table. -/
structure TagDBState where
  articles : List (Nat × String)
  tagRows : List TagRow
  deriving Repr, DecidableEq

/-- `main()` of `advanced_tagging.py` as a state transformer: it reads
`legal_articles`, then `DELETE FROM legal_article_tags` and inserts the
recomputed rows.  `now` is the wall-clock timestamp of the run. -/
def rebuild_tags (L : ℚ → ℚ) (now : Nat) (st : TagDBState) : TagDBState :=
  { articles := st.articles
    tagRows := computeTagRows L now st.articles }

/-- Projection of a tag row to its `(article identifier, tag, score)`
content, forgetting the timestamp columns. -/
def TagRow.content (r : TagRow) : Nat × String × ℚ :=
  (r.article_id, r.tag, r.score)

/-! ## `create_ingestion_view.py` : primary-tag selection

`main()` aggregates, per article, its tag rows into a `tag:score` string,
re-parses them into `(tag, score)` pairs (a score that is missing or fails
`float()` becomes `None`), sorts the pairs by the key
`(x[1] is not None, x[1])` with `reverse=True`, and takes the first tag (if
any) as `tag_primary`.  The embedding below starts from the parsed pairs;
the `GROUP_CONCAT` round-trip through SQL text is outside the model.
-/

/-- Python's `<=` on the sort keys `(x is not None, x)` built from an
optional score.  `(False, None)` against `(True, s)` is decided by the
boolean; two present scores compare numerically.  Python raises a
`TypeError` when it compares `None` with `None`; that case never arises in
the theorems below (which require all scores present) and is arbitrarily
set to `true` here. -/
def optKeyLe : Option ℚ → Option ℚ → Prop
  | none, _ => True
  | some _, none => False
  | some a, some b => a ≤ b

instance : DecidableRel optKeyLe := fun a b => by
  unfold optKeyLe
  cases a <;> cases b <;> infer_instance

/-- The sort `pairs.sort(key=lambda x: (x[1] is not None, x[1]),
reverse=True)`: stable, descending in the key. -/
def sortPairsForPrimary (pairs : List (String × Option ℚ)) :
    List (String × Option ℚ) :=
  pairs.insertionSort (fun a b => optKeyLe b.2 a.2)

/-- `primary = pairs[0][0] if pairs else None`, evaluated after the sort:
the materialized `tag_primary` column for one article. -/
def selectPrimary (pairs : List (String × Option ℚ)) : Option String :=
  (sortPairsForPrimary pairs).head?.map Prod.fst

/-! ## `generate_embeddings.py` : change detection and the batch loop -/

/-- `EMBEDDING_DIM = 384`. -/
def EMBEDDING_DIM : Nat := 384

/-- `EMBEDDING_MODEL = "paraphrase-multilingual-MiniLM-L12-v2"`. -/
def EMBEDDING_MODEL : String := "paraphrase-multilingual-MiniLM-L12-v2"

/-- One row of the `article_ingestion` table as read by
`get_pending_articles` (the `tags` column after the `json.loads` /
`[t['tag'] for t in tags[:5]]` extraction; `none` stands for a NULL or
unparsable column, which the `except` clause skips). -/
structure IngRow where
  article_id : Nat
  document_id : Nat
  content : String
  tag_primary : Option String
  tags : Option (List String)
  deriving Repr, DecidableEq

/-- One row of `article_embeddings` (`article_id` is `UNIQUE`). -/
structure EmbRecord where
  article_id : Nat
  document_id : Nat
  model_name : String
  embedding_dim : Nat
  vector : List ℚ
  norm : ℚ
  content_hash : String
  created_at : Nat
  updated_at : Nat
  deriving Repr, DecidableEq

/-- The `article_embeddings` table, keyed by its unique `article_id`. -/
def EmbStore : Type := Nat → Option EmbRecord

/-- The composite text `content + primary-tag line + tag line` built by
`get_pending_articles` (Python truthiness: an empty `tag_primary` string
and an empty extracted tag list are skipped). -/
def buildEmbeddingText (ai : IngRow) : String :=
  let t := ai.content
  let t := match ai.tag_primary with
    | some s => if s ≠ "" then t ++ "\n\nПървичен таг: " ++ s else t
    | none => t
  match ai.tags with
  | some tags =>
    let names := tags.take 5
    if names ≠ [] then t ++ "\nТагове: " ++ String.intercalate ", " names
    else t
  | none => t

/-- The selection made by one pending article dict. -/
structure PendingArticle where
  article_id : Nat
  document_id : Nat
  content : String
  content_hash : String
  deriving Repr, DecidableEq

/-- `get_pending_articles`: the SQL `LEFT JOIN` with
`WHERE ae.id IS NULL OR ae.content_hash != ?`, where the bound parameter is
`compute_content_hash("")` (the source's "Dummy hash for initial run"), an
optional `LIMIT`, and the per-row dict construction.  `H` abstracts
`compute_content_hash` (SHA-256 hex digest). -/
def get_pending_articles (H : String → String) (ing : List IngRow)
    (emb : EmbStore) (limit : Option Nat) : List PendingArticle :=
  let selected := ing.filter
    (fun ai => match emb ai.article_id with
      | none => true
      | some ae => ae.content_hash ≠ H "")
  let selected := match limit with
    | some n => if n = 0 then selected else selected.take n
    | none => selected
  selected.map (fun ai =>
    ⟨ai.article_id, ai.document_id, buildEmbeddingText ai, H ai.content⟩)

/-- Modelled from the spec (the claim's selection criterion, for comparison
with the code): an article needs (re-)embedding iff it has no stored
`EmbeddingRecord` or the stored `content_hash` differs from the hash of the
article's current content. -/
def specNeedsEmbedding (H : String → String) (ai : IngRow)
    (emb : EmbStore) : Prop :=
  match emb ai.article_id with
  | none => True
  | some ae => ae.content_hash ≠ H ai.content

instance (H : String → String) (ai : IngRow) (emb : EmbStore) :
    Decidable (specNeedsEmbedding H ai emb) := by
  unfold specNeedsEmbedding
  cases emb ai.article_id <;> infer_instance

/-- `store_embedding`: `INSERT OR REPLACE` keyed on the unique
`article_id`, storing the vector, its L2 norm (`sqrtQ` abstracts
`math.sqrt`), the model name, the declared dimensionality and the content
hash, with both timestamps set to the statement's `CURRENT_TIMESTAMP`. -/
def store_embedding (sqrtQ : ℚ → ℚ) (now : Nat) (st : EmbStore)
    (article_id document_id : Nat) (vector : List ℚ)
    (content_hash : String) : EmbStore :=
  fun id =>
    if id = article_id then
      some
        { article_id := article_id
          document_id := document_id
          model_name := EMBEDDING_MODEL
          embedding_dim := EMBEDDING_DIM
          vector := vector
          norm := sqrtQ ((vector.map (fun x => x * x)).sum)
          content_hash := content_hash
          created_at := now
          updated_at := now }
    else st id

/-- `process_batch`: one article at a time; `get_embedding` is abstracted
as `embedF` (returning `none` when encoding raised).  Python's
`if vector:` is falsy both for `None` and for an empty list; a wrong-length
vector is counted as a failure and nothing is stored; otherwise
`store_embedding` commits the record and the loop continues. -/
def process_batch (sqrtQ : ℚ → ℚ) (embedF : String → Option (List ℚ))
    (now : Nat) : List PendingArticle → EmbStore → (Nat × Nat) × EmbStore
  | [], st => ((0, 0), st)
  | a :: rest, st =>
    match embedF a.content with
    | some v =>
      if v.isEmpty = false then
        if v.length = EMBEDDING_DIM then
          let st' := store_embedding sqrtQ now st a.article_id a.document_id
            v a.content_hash
          let r := process_batch sqrtQ embedF now rest st'
          ((r.1.1 + 1, r.1.2), r.2)
        else
          let r := process_batch sqrtQ embedF now rest st
          ((r.1.1, r.1.2 + 1), r.2)
      else
        let r := process_batch sqrtQ embedF now rest st
        ((r.1.1, r.1.2 + 1), r.2)
    | none =>
      let r := process_batch sqrtQ embedF now rest st
      ((r.1.1, r.1.2 + 1), r.2)

/-- An article on which `process_batch` succeeds: `get_embedding` returned
a non-empty vector of exactly the configured dimensionality. -/
def batchOk (embedF : String → Option (List ℚ)) (a : PendingArticle) : Bool :=
  match embedF a.content with
  | some v => !v.isEmpty && (v.length == EMBEDDING_DIM)
  | none => false

/-! ## `semantic_search.py` : cosine similarity and brute-force search -/

/-- `cosine_similarity(vec1, vec2, norm1, norm2)`: raises `ValueError` on
a dimension mismatch (modelled as `Except.error` carrying the formatted
message), recomputes a missing norm with `math.sqrt` (abstracted as
`sqrtQ`), returns `0.0` when either norm is zero, and otherwise the dot
product over the product of norms. -/
def cosine_similarity (sqrtQ : ℚ → ℚ) (vec1 vec2 : List ℚ)
    (norm1 norm2 : Option ℚ) : Except String ℚ :=
  if vec1.length ≠ vec2.length then
    .error ("Vector dimension mismatch: " ++ toString vec1.length ++ " != "
      ++ toString vec2.length)
  else
    let dot := ((vec1.zip vec2).map (fun p => p.1 * p.2)).sum
    let n1 := norm1.getD (sqrtQ ((vec1.map (fun x => x * x)).sum))
    let n2 := norm2.getD (sqrtQ ((vec2.map (fun x => x * x)).sum))
    if n1 = 0 ∨ n2 = 0 then .ok 0
    else .ok (dot / (n1 * n2))

/-- `round(similarity, 4)`: rounding to four decimal places, modelled over
`ℚ` with Mathlib's `round` (nearest integer; Python rounds the nearest
binary double half-to-even, which agrees away from exact half-way points —
no theorem below depends on half-way behaviour). -/
def round4 (q : ℚ) : ℚ :=
  ((round (q * 10000) : ℤ) : ℚ) / 10000

/-- One joined row of the search's SQL query: an embedding row with its
ingestion fields (`tags` already parsed to a list of tag names; parsing
failures yield `[]` via the `except: pass`). -/
structure SearchRow where
  article_id : Nat
  document_id : Nat
  vector : List ℚ
  norm : ℚ
  article_number : String
  content : String
  tag_primary : Option String
  tags : List String
  deriving Repr, DecidableEq

/-- The truncated display content: `content[:200] + "..."` when the
content is longer than 200 characters. -/
def displayContent (content : String) : String :=
  if 200 < content.length then String.mk (content.toList.take 200) ++ "..."
  else content

/-- One result dict appended by the search loop. -/
structure SearchResult where
  article_id : Nat
  document_id : Nat
  article_number : String
  content : String
  tag_primary : Option String
  tags : List String
  similarity : ℚ
  deriving Repr, DecidableEq

/-- The result dict built for row `r` with unrounded similarity `sim`:
display-truncated content, the first three tags, and the similarity
rounded to four decimals. -/
def mkResult (r : SearchRow) (sim : ℚ) : SearchResult :=
  { article_id := r.article_id
    document_id := r.document_id
    article_number := r.article_number
    content := displayContent r.content
    tag_primary := r.tag_primary
    tags := r.tags.take 3
    similarity := round4 sim }

/-- The row loop of `search_similar_articles`: compute the similarity of
each row (a `ValueError` aborts the whole call), drop rows below
`min_similarity` (compared on the unrounded value), and append a result
for the rest. -/
def searchLoop (sqrtQ : ℚ → ℚ) (query_vector : List ℚ) (query_norm : ℚ)
    (min_similarity : ℚ) : List SearchRow → Except String (List SearchResult)
  | [] => .ok []
  | r :: rest =>
    match cosine_similarity sqrtQ query_vector r.vector (some query_norm)
        (some r.norm) with
    | .error e => .error e
    | .ok sim =>
      match searchLoop sqrtQ query_vector query_norm min_similarity rest with
      | .error e => .error e
      | .ok tail =>
        .ok (if sim < min_similarity then tail else mkResult r sim :: tail)

/-- The optional `WHERE ae.document_id = ?` clause: Python's
`if document_id:` treats both `None` and `0` as "no filter". -/
def docFilter (rows : List SearchRow) (document_id : Option Nat) :
    List SearchRow :=
  match document_id with
  | some d => if d = 0 then rows else rows.filter (fun r => r.document_id = d)
  | none => rows

/-- `search_similar_articles`: optional `document_id` filter, query norm
computed once, the row loop, then a stable sort by the *rounded*
similarity, descending, truncated to `top_k`. -/
def search_similar_articles (sqrtQ : ℚ → ℚ) (rows : List SearchRow)
    (query_vector : List ℚ) (top_k : Nat) (document_id : Option Nat)
    (min_similarity : ℚ) : Except String (List SearchResult) :=
  let rows' := docFilter rows document_id
  let query_norm := sqrtQ ((query_vector.map (fun x => x * x)).sum)
  match searchLoop sqrtQ query_vector query_norm min_similarity rows' with
  | .error e => .error e
  | .ok results =>
    .ok ((results.insertionSort (fun a b => b.similarity ≤ a.similarity)).take
      top_k)

/-! ## Theorems -/

/-- C9: running the tag rebuild twice on an unchanged article corpus
produces identical TagAssignment sets: the `(article identifier, tag,
score)` rows after the second run equal those after the first, for any
pair of run timestamps (only the timestamp columns, which the claim
excludes, differ between runs). -/
theorem C9_rebuild_idempotent (L : ℚ → ℚ) (t1 t2 : Nat) (st : TagDBState) :
    ((rebuild_tags L t2 (rebuild_tags L t1 st)).tagRows).map TagRow.content =
      ((rebuild_tags L t1 st).tagRows).map TagRow.content := by
  show (computeTagRows L t2 st.articles).map TagRow.content =
    (computeTagRows L t1 st.articles).map TagRow.content
  simp [computeTagRows, TagRow.content, List.map_flatMap, Function.comp_def]

/-- C5 (counterexample): `cosine_similarity` does raise on a pair of
query/stored vectors — a dimension mismatch is a `ValueError`, so the
claim's "never raises an exception" fails at this input. -/
theorem C5_counterexample :
    cosine_similarity id [1] [] none none =
      .error "Vector dimension mismatch: 1 != 0" := by
  rfl

/-- C5 (amended): for every pair of query and stored vectors *of equal
length* (with their precomputed norms supplied, as the search path does),
`cosine_similarity` returns `dot(q, v) / (norm1 * norm2)`, returning `0`
when either norm is zero; on these inputs it never raises.  On vectors of
unequal length it raises a `ValueError` instead. -/
theorem C5_cosine_formula (sqrtQ : ℚ → ℚ) (vec1 vec2 : List ℚ)
    (norm1 norm2 : ℚ) (h : vec1.length = vec2.length) :
    cosine_similarity sqrtQ vec1 vec2 (some norm1) (some norm2) =
      .ok (if norm1 = 0 ∨ norm2 = 0 then 0
        else ((vec1.zip vec2).map (fun p => p.1 * p.2)).sum /
          (norm1 * norm2)) := by
  unfold cosine_similarity
  simp only [h, ne_eq, not_true_eq_false, if_false, Option.getD_some]
  exact (apply_ite Except.ok _ _ _).symm

/-- Witness for C5: the amended theorem evaluated at concrete vectors,
including a zero-norm pair. -/
theorem C5_witness :
    cosine_similarity id [1, 2] [3, 4] (some 1) (some 2) = .ok (11 / 2) ∧
    cosine_similarity id [1, 2] [3, 4] (some 0) (some 2) = .ok 0 := by
  constructor
  · rw [C5_cosine_formula id [1, 2] [3, 4] 1 2 rfl]
    norm_num
  · rw [C5_cosine_formula id [1, 2] [3, 4] 0 2 rfl]
    norm_num

/-- The `article_embeddings` row used in the C1 scenario: the stored
content hash equals the hash of the article's current content (the article
is up to date).  The hash function is instantiated to `id`, a legitimate
instance of the abstracted digest. -/
def c1Store : EmbStore := fun id =>
  if id = 1 then
    some
      { article_id := 1
        document_id := 7
        model_name := EMBEDDING_MODEL
        embedding_dim := EMBEDDING_DIM
        vector := [1]
        norm := 1
        content_hash := "абв"
        created_at := 0
        updated_at := 0 }
  else none

/-- The matching `article_ingestion` row with unchanged content. -/
def c1Row : IngRow :=
  { article_id := 1
    document_id := 7
    content := "абв"
    tag_primary := none
    tags := none }

/-- C1 (the code at the failing input): the article's stored hash equals
the hash of its current, unchanged content, so the spec's selection
criterion says it must not be selected — yet `get_pending_articles`
selects it, because the SQL parameter it compares stored hashes against is
`compute_content_hash("")` (the source's "Dummy hash for initial run"),
not the hash of the row's current content. -/
theorem C1_dummy_hash_selects_unchanged_article :
    (get_pending_articles id [c1Row] c1Store none).map
        (fun a => a.article_id) = [1] ∧
    ¬ specNeedsEmbedding id c1Row c1Store := by
  constructor
  · rfl
  · intro h
    exact (by decide : ¬ ("абв" : String) ≠ "абв") h

theorem process_batch_nil (sqrtQ : ℚ → ℚ)
    (embedF : String → Option (List ℚ)) (now : Nat) (st : EmbStore) :
    process_batch sqrtQ embedF now [] st = ((0, 0), st) := rfl

/-- Unfolding lemma for one step of the batch loop, phrased through
`batchOk`. -/
theorem process_batch_cons (sqrtQ : ℚ → ℚ)
    (embedF : String → Option (List ℚ)) (now : Nat) (a : PendingArticle)
    (rest : List PendingArticle) (st : EmbStore) :
    process_batch sqrtQ embedF now (a :: rest) st =
      if batchOk embedF a then
        let st' := store_embedding sqrtQ now st a.article_id a.document_id
          ((embedF a.content).getD []) a.content_hash
        let r := process_batch sqrtQ embedF now rest st'
        ((r.1.1 + 1, r.1.2), r.2)
      else
        let r := process_batch sqrtQ embedF now rest st
        ((r.1.1, r.1.2 + 1), r.2) := by
  cases hv : embedF a.content with
  | none => simp only [process_batch, batchOk, hv]; rfl
  | some v =>
    simp only [process_batch, batchOk, hv, Option.getD_some]
    by_cases hve : v.isEmpty = false
    · rw [if_pos hve]
      by_cases hd : v.length = EMBEDDING_DIM
      · rw [if_pos hd, if_pos (by simp [hve, hd])]
      · rw [if_neg hd, if_neg (by simp [hve, hd])]
    · rw [if_neg hve, if_neg (by simp_all)]

/-- The success/failure counters of a batch count exactly the articles on
which the embedding output was usable / unusable. -/
theorem process_batch_counts (sqrtQ : ℚ → ℚ)
    (embedF : String → Option (List ℚ)) (now : Nat)
    (articles : List PendingArticle) (st : EmbStore) :
    (process_batch sqrtQ embedF now articles st).1 =
      (articles.countP (batchOk embedF),
       articles.countP (fun a => !batchOk embedF a)) := by
  induction articles generalizing st with
  | nil => rfl
  | cons a rest ih =>
    rw [process_batch_cons]
    by_cases hok : batchOk embedF a = true
    · simp [hok, ih, List.countP_cons]
    · simp only [Bool.not_eq_true] at hok
      simp [hok, ih, List.countP_cons]

/-- A record already present in the store stays present through the rest
of a batch (the loop only ever upserts). -/
theorem process_batch_isSome_mono (sqrtQ : ℚ → ℚ)
    (embedF : String → Option (List ℚ)) (now : Nat)
    (articles : List PendingArticle) (st : EmbStore) (id : Nat)
    (h : ((st id).isSome : Bool) = true) :
    (((process_batch sqrtQ embedF now articles st).2) id).isSome = true := by
  induction articles generalizing st with
  | nil => exact h
  | cons a rest ih =>
    rw [process_batch_cons]
    by_cases hok : batchOk embedF a = true
    · simp only [hok, if_true]
      apply ih
      by_cases hid : id = a.article_id <;> simp [store_embedding, hid, h]
    · simp only [hok, if_false, Bool.false_eq_true]
      exact ih st h

/-- Store cells whose id is not the id of any successfully embedded
article of the batch are left exactly as they were. -/
theorem process_batch_untouched (sqrtQ : ℚ → ℚ)
    (embedF : String → Option (List ℚ)) (now : Nat)
    (articles : List PendingArticle) (st : EmbStore) (id : Nat)
    (h : ∀ a ∈ articles, batchOk embedF a = true → a.article_id ≠ id) :
    ((process_batch sqrtQ embedF now articles st).2) id = st id := by
  induction articles generalizing st with
  | nil => rfl
  | cons a rest ih =>
    rw [process_batch_cons]
    by_cases hok : batchOk embedF a = true
    · simp only [hok, if_true]
      have hne : id ≠ a.article_id :=
        fun hh => (h a (by simp) hok) hh.symm
      rw [ih _ (fun b hb => h b (by simp [hb]))]
      simp [store_embedding, hne]
    · simp only [hok, if_false, Bool.false_eq_true]
      exact ih st (fun b hb => h b (by simp [hb]))

/-- Every successfully embedded article of a batch ends up with a stored
record. -/
theorem process_batch_commits (sqrtQ : ℚ → ℚ)
    (embedF : String → Option (List ℚ)) (now : Nat)
    (articles : List PendingArticle) (st : EmbStore) :
    ∀ a ∈ articles, batchOk embedF a = true →
      (((process_batch sqrtQ embedF now articles st).2) a.article_id).isSome
        = true := by
  induction articles generalizing st with
  | nil => intro a ha; exact absurd ha (List.not_mem_nil a)
  | cons b rest ih =>
    intro a ha hok
    rw [process_batch_cons]
    by_cases hbok : batchOk embedF b = true
    · simp only [hbok, if_true]
      rcases List.mem_cons.1 ha with rfl | hmem
      · apply process_batch_isSome_mono
        simp [store_embedding]
      · exact ih _ a hmem hok
    · simp only [hbok, if_false, Bool.false_eq_true]
      rcases List.mem_cons.1 ha with rfl | hmem
      · exact absurd hok hbok
      · exact ih st a hmem hok

/-- C8: during a batch run, an embedding output of the wrong length (or a
failed embedding call) is counted as a per-article failure and is never
persisted to the embedding store; the batch is never aborted — every
article is processed (successes plus failures exhaust the batch), store
cells not belonging to a successfully embedded article are untouched, and
every successfully embedded article has a committed record afterwards. -/
theorem C8_per_item_failure_isolation (sqrtQ : ℚ → ℚ)
    (embedF : String → Option (List ℚ)) (now : Nat)
    (articles : List PendingArticle) (st : EmbStore) :
    (process_batch sqrtQ embedF now articles st).1.1 =
        articles.countP (batchOk embedF) ∧
    (process_batch sqrtQ embedF now articles st).1.2 =
        articles.countP (fun a => !batchOk embedF a) ∧
    (process_batch sqrtQ embedF now articles st).1.1 +
        (process_batch sqrtQ embedF now articles st).1.2 = articles.length ∧
    (∀ id : Nat,
        (∀ a ∈ articles, batchOk embedF a = true → a.article_id ≠ id) →
        ((process_batch sqrtQ embedF now articles st).2) id = st id) ∧
    (∀ a ∈ articles, batchOk embedF a = true →
        (((process_batch sqrtQ embedF now articles st).2) a.article_id).isSome
          = true) := by
  have hc := process_batch_counts sqrtQ embedF now articles st
  have h1 : (process_batch sqrtQ embedF now articles st).1.1 =
      articles.countP (batchOk embedF) := by rw [hc]
  have h2 : (process_batch sqrtQ embedF now articles st).1.2 =
      articles.countP (fun a => !batchOk embedF a) := by rw [hc]
  refine ⟨h1, h2, ?_, ?_, ?_⟩
  · rw [h1, h2]
    simpa using (List.length_eq_countP_add_countP (batchOk embedF)
      articles).symm
  · exact fun id h => process_batch_untouched sqrtQ embedF now articles st
      id h
  · exact process_batch_commits sqrtQ embedF now articles st

/-- The embedding function of the C8 witness: one article encodes to a
correct 384-dimensional vector, one to a vector of the wrong length, one
fails to encode at all. -/
def c8Embed : String → Option (List ℚ) := fun s =>
  if s = "good" then some (List.replicate 384 1)
  else if s = "short" then some [1] else none

/-- The three-article batch of the C8 witness. -/
def c8Articles : List PendingArticle :=
  [⟨1, 1, "good", "h1"⟩, ⟨2, 1, "short", "h2"⟩, ⟨3, 1, "bad", "h3"⟩]

set_option maxRecDepth 10000 in
/-- Witness for C8: on the concrete batch, one success and two failures
are counted, the wrong-length article's store cell stays empty, and the
successful article's record is present. -/
theorem C8_witness :
    (process_batch id c8Embed 0 c8Articles (fun _ => none)).1.1 = 1 ∧
    (process_batch id c8Embed 0 c8Articles (fun _ => none)).1.2 = 2 ∧
    ((process_batch id c8Embed 0 c8Articles (fun _ => none)).2) 2 = none ∧
    (((process_batch id c8Embed 0 c8Articles (fun _ => none)).2) 1).isSome
      = true := by
  obtain ⟨h1, h2, _, h4, h5⟩ :=
    C8_per_item_failure_isolation id c8Embed 0 c8Articles (fun _ => none)
  refine ⟨?_, ?_, ?_, ?_⟩
  · rw [h1]; decide
  · rw [h2]; decide
  · exact h4 2 (by decide)
  · exact h5 ⟨1, 1, "good", "h1"⟩ (by decide) (by decide)

theorem optKeyLe_total (x y : Option ℚ) : optKeyLe x y ∨ optKeyLe y x := by
  cases x <;> cases y <;> simp [optKeyLe]
  exact le_total _ _

theorem optKeyLe_trans {x y z : Option ℚ} (h1 : optKeyLe x y)
    (h2 : optKeyLe y z) : optKeyLe x z := by
  cases x <;> cases y <;> cases z <;> simp_all [optKeyLe]
  exact le_trans h1 h2

/-- C7: for every article, the materializer's `tag_primary` is the
highest-scoring tag of that article's (score-carrying) tag list, and is
null exactly when the list is empty. -/
theorem C7_primary_is_top_scoring (pairs : List (String × Option ℚ))
    (hall : ∀ p ∈ pairs, p.2.isSome = true) :
    (pairs = [] → selectPrimary pairs = none) ∧
    (pairs ≠ [] → ∃ t s, selectPrimary pairs = some t ∧
      (t, some s) ∈ pairs ∧
      ∀ p ∈ pairs, ∀ v : ℚ, p.2 = some v → v ≤ s) := by
  constructor
  · rintro rfl; rfl
  · intro hne
    haveI : IsTotal (String × Option ℚ)
        (fun a b => optKeyLe b.2 a.2) := ⟨fun a b => optKeyLe_total b.2 a.2⟩
    haveI : IsTrans (String × Option ℚ)
        (fun a b => optKeyLe b.2 a.2) :=
      ⟨fun _ _ _ h1 h2 => optKeyLe_trans h2 h1⟩
    have hperm : (sortPairsForPrimary pairs).Perm pairs :=
      List.perm_insertionSort _ pairs
    have hsorted : List.Sorted
        (fun a b : String × Option ℚ => optKeyLe b.2 a.2)
        (sortPairsForPrimary pairs) :=
      List.sorted_insertionSort _ pairs
    cases hs : sortPairsForPrimary pairs with
    | nil =>
      exact absurd ((hs ▸ hperm).symm.eq_nil) hne
    | cons hd tl =>
      have hhd_mem : hd ∈ pairs := (hs ▸ hperm).mem_iff.1 (by simp)
      obtain ⟨s, hs2⟩ := Option.isSome_iff_exists.1 (hall hd hhd_mem)
      refine ⟨hd.1, s, ?_, ?_, ?_⟩
      · simp [selectPrimary, hs]
      · rw [← hs2]; exact hhd_mem
      · intro p hp v hv
        have hp' : p ∈ hd :: tl := ((hs ▸ hperm).symm.mem_iff).1 hp
        rcases List.mem_cons.1 hp' with rfl | hmem
        · rw [hv] at hs2; cases hs2; exact le_refl _
        · have hrel : optKeyLe p.2 hd.2 := by
            have := (List.pairwise_cons.1 (hs ▸ hsorted)).1 p hmem
            exact this
          rw [hv, hs2] at hrel
          exact hrel

/-- Witness for C7: the theorem applied to a concrete two-tag list. -/
theorem C7_witness :
    ∃ t s, selectPrimary [("a", some 1), ("b", some 2)] = some t ∧
      (t, some s) ∈ [("a", some (1 : ℚ)), ("b", some 2)] ∧
      ∀ p ∈ [("a", some (1 : ℚ)), ("b", some 2)], ∀ v : ℚ,
        p.2 = some v → v ≤ s :=
  (C7_primary_is_top_scoring [("a", some 1), ("b", some 2)]
    (by decide)).2 (by decide)

/-- The ordering the claim asserts for a produced tag list: score strictly
descending, with exact score ties broken by tag name ascending. -/
def claimTagOrder (a b : String × ℚ) : Prop :=
  b.2 < a.2 ∨ (a.2 = b.2 ∧ a.1 < b.1)

instance : DecidableRel claimTagOrder := fun a b => by
  unfold claimTagOrder; infer_instance

/-- The one-article corpus used by the concrete tagging scenarios: its
only article contains one `tax_procedure` keyword and one
`civil_procedure` keyword, once each, so the two tags score exactly
alike. -/
def c2Arts : List (Nat × String) := [(1, "данък иск")]

/-- The token list of the corpus's single article. -/
def c2Toks : List String := docTokens "данък иск"

/-- C2 (counterexample): on the one-article corpus the scorer emits
`[("tax_procedure", 1), ("civil_procedure", 1)]` — an exact score tie left
in keyword-table declaration order, not in tag-name ascending order
(`"civil_procedure" < "tax_procedure"`), so the claimed ordering fails. -/
theorem C2_counterexample :
    ¬ List.Pairwise claimTagOrder
      (articleTags (fun _ => 0) c2Arts c2Toks) := by
  with_unfolding_all decide

/-- C2 (amended): every produced tag list has at most 5 entries and is
ordered by score descending; the sort is stable, so entries with exactly
equal scores keep their accumulation order — the declaration order of the
keyword table — rather than being reordered by tag name. -/
theorem C2_tag_list_shape (L : ℚ → ℚ) (arts : List (Nat × String))
    (toks : List String) (a b : String × ℚ)
    (hsub : [a, b].Sublist (articleTagsFull L arts toks))
    (hle : b.2 ≤ a.2) :
    (articleTags L arts toks).length ≤ 5 ∧
    List.Pairwise (fun x y : String × ℚ => y.2 ≤ x.2)
      (articleTags L arts toks) ∧
    [a, b].Sublist ((articleTagsFull L arts toks).insertionSort
      (fun x y : String × ℚ => y.2 ≤ x.2)) := by
  haveI : IsTotal (String × ℚ) (fun x y => y.2 ≤ x.2) :=
    ⟨fun x y => le_total y.2 x.2⟩
  haveI : IsTrans (String × ℚ) (fun x y => y.2 ≤ x.2) :=
    ⟨fun _ _ _ h1 h2 => le_trans h2 h1⟩
  refine ⟨?_, ?_, ?_⟩
  · exact List.length_take_le 5 _
  · exact List.Pairwise.sublist (List.take_sublist 5 _)
      (List.sorted_insertionSort _ _)
  · exact List.pair_sublist_insertionSort hle hsub

/-- Witness for C2's amended theorem, at the concrete tied corpus. -/
theorem C2_witness :
    (articleTags (fun _ => 0) c2Arts c2Toks).length ≤ 5 ∧
    List.Pairwise (fun x y : String × ℚ => y.2 ≤ x.2)
      (articleTags (fun _ => 0) c2Arts c2Toks) ∧
    [(("tax_procedure" : String), (1 : ℚ)),
     ("civil_procedure", 1)].Sublist
      ((articleTagsFull (fun _ => 0) c2Arts c2Toks).insertionSort
        (fun x y : String × ℚ => y.2 ≤ x.2)) := by
  have hfull : articleTagsFull (fun _ => 0) c2Arts c2Toks =
      [(("tax_procedure" : String), (1 : ℚ)), ("civil_procedure", 1)] := by
    with_unfolding_all decide
  exact C2_tag_list_shape (fun _ => 0) c2Arts c2Toks _ _
    (by rw [hfull]) (by norm_num)

/-- The claim's formula for a tag's score on a document: the sum, over the
tag's (stemmed) seed keywords that occur in the document's token sequence,
of `(1 + log(term_frequency)) * idf(keyword)`. -/
def specTagScore (L : ℚ → ℚ) (arts : List (Nat × String)) (toks : List String)
    (vocab : List String) : ℚ :=
  ((vocab.filter (fun t => toks.count t != 0)).map
    (fun t => (1 + L ((toks.count t : ℚ))) *
      idf L arts.length (df arts t))).sum

theorem tagScore_foldl_aux (L : ℚ → ℚ) (arts : List (Nat × String))
    (toks : List String) :
    ∀ (vocab : List String) (init : ℚ),
    vocab.foldl
      (fun score token =>
        if toks.count token ≠ 0 then
          score + (1 + L ((toks.count token : ℚ))) *
            idf L arts.length (df arts token)
        else score) init =
      init + specTagScore L arts toks vocab
  | [], init => by simp [specTagScore]
  | t :: vs, init => by
    rw [List.foldl_cons, tagScore_foldl_aux L arts toks vs]
    unfold specTagScore
    rw [List.filter_cons]
    by_cases h : List.count t toks = 0
    · rw [if_neg (fun hh => hh h), if_neg (by simp [h])]
    · rw [if_pos h, if_pos (by simp [h]), List.map_cons, List.sum_cons]
      ring

/-- The scoring loop computes exactly the claim's sum. -/
theorem tagScore_eq_spec (L : ℚ → ℚ) (arts : List (Nat × String))
    (toks : List String) (vocab : List String) :
    tagScore L arts toks vocab = specTagScore L arts toks vocab := by
  unfold tagScore
  rw [tagScore_foldl_aux L arts toks vocab 0, zero_add]

theorem assoc_unique {β : Type} :
    ∀ (l : List (String × β)) (t : String) (b1 b2 : β),
    (l.map Prod.fst).Nodup → (t, b1) ∈ l → (t, b2) ∈ l → b1 = b2
  | [], t, b1, b2, _, h1, _ => absurd h1 (List.not_mem_nil _)
  | (k, v) :: rest, t, b1, b2, hnd, h1, h2 => by
    simp only [List.map_cons, List.nodup_cons] at hnd
    rcases List.mem_cons.1 h1 with he1 | hm1 <;>
      rcases List.mem_cons.1 h2 with he2 | hm2
    · obtain ⟨ht1, hb1⟩ := Prod.mk.inj he1
      obtain ⟨ht2, hb2⟩ := Prod.mk.inj he2
      rw [hb1, hb2]
    · obtain ⟨ht1, hb1⟩ := Prod.mk.inj he1
      subst ht1
      exact absurd (List.mem_map_of_mem Prod.fst hm2) hnd.1
    · obtain ⟨ht2, hb2⟩ := Prod.mk.inj he2
      subst ht2
      exact absurd (List.mem_map_of_mem Prod.fst hm1) hnd.1
    · exact assoc_unique rest t b1 b2 hnd.2 hm1 hm2

/-- The thirteen tag names of the vocabulary are pairwise distinct. -/
theorem build_tag_vocab_names_nodup :
    (build_tag_vocab.map Prod.fst).Nodup := by
  have h : build_tag_vocab.map Prod.fst = RAW_TAG_KEYWORDS.map Prod.fst := by
    simp [build_tag_vocab, List.map_map, Function.comp_def]
  rw [h]
  decide

/-- C4: every tag assigned to a document carries score
`Σ (1 + ln tf) × idf` over the tag's occurring keywords, with the smoothed
idf of the claim, and that score is strictly positive; a tag none of whose
keywords occurs is never assigned. -/
theorem C4_score_formula (L : ℚ → ℚ) (arts : List (Nat × String))
    (toks : List String) (tag : String) (vocab : List String)
    (hv : (tag, vocab) ∈ build_tag_vocab) :
    (∀ s : ℚ, (tag, s) ∈ articleTags L arts toks →
        s = specTagScore L arts toks vocab ∧ 0 < s) ∧
    ((∀ t ∈ vocab, toks.count t = 0) →
        ∀ s : ℚ, (tag, s) ∉ articleTags L arts toks) := by
  have hmem : ∀ s : ℚ, (tag, s) ∈ articleTags L arts toks →
      s = tagScore L arts toks vocab ∧ 0 < s := by
    intro s hs
    have h2 : (tag, s) ∈ (articleTagsFull L arts toks).insertionSort
        (fun x y : String × ℚ => y.2 ≤ x.2) :=
      List.Sublist.mem hs (List.take_sublist 5 _)
    have h1 : (tag, s) ∈ articleTagsFull L arts toks :=
      (List.perm_insertionSort _ _).mem_iff.1 h2
    rcases List.mem_filterMap.1 h1 with ⟨tv, htv, heq⟩
    by_cases hpos : 0 < tagScore L arts toks tv.2
    · rw [if_pos hpos] at heq
      have hpair := Option.some.inj heq
      obtain ⟨ht1, ht2⟩ := Prod.mk.inj hpair
      have hveq : tv.2 = vocab := by
        have htv' : (tag, tv.2) ∈ build_tag_vocab := by
          rw [← ht1]; exact htv
        exact assoc_unique build_tag_vocab tag tv.2 vocab
          build_tag_vocab_names_nodup htv' hv
      rw [← ht2, hveq]
      exact ⟨rfl, hveq ▸ hpos⟩
    · rw [if_neg hpos] at heq
      exact absurd heq (Option.noConfusion)
  constructor
  · intro s hs
    obtain ⟨he, hp⟩ := hmem s hs
    exact ⟨he.trans (tagScore_eq_spec L arts toks vocab), hp⟩
  · intro hz s hs
    obtain ⟨he, hp⟩ := hmem s hs
    have h0 : tagScore L arts toks vocab = 0 := by
      rw [tagScore_eq_spec]
      unfold specTagScore
      rw [List.filter_eq_nil_iff.2 (fun t ht => by simp [hz t ht])]
      simp
    rw [he, h0] at hp
    exact lt_irrefl 0 hp

/-- Witness for C4: on the concrete one-article corpus, the
`tax_procedure` score of the article equals the claim's sum and is
positive. -/
theorem C4_witness :
    (1 : ℚ) = specTagScore (fun _ => 0) c2Arts c2Toks
        ["данък", "данъч", "декларац", "ревиз", "обжалване"] ∧
    (0 : ℚ) < 1 :=
  (C4_score_formula (fun _ => 0) c2Arts c2Toks "tax_procedure"
      ["данък", "данъч", "декларац", "ревиз", "обжалване"]
      (by with_unfolding_all decide)).1 1
    (by with_unfolding_all decide)

/-- Whether one row passes the search's threshold test: its cosine
similarity (on the unrounded value) is not below `min_similarity`. -/
def rowPasses (sqrtQ : ℚ → ℚ) (query_vector : List ℚ) (query_norm : ℚ)
    (min_similarity : ℚ) (r : SearchRow) : Bool :=
  match cosine_similarity sqrtQ query_vector r.vector (some query_norm)
      (some r.norm) with
  | .ok s => !decide (s < min_similarity)
  | .error _ => false

theorem searchLoop_ok_length (sqrtQ : ℚ → ℚ) (qv : List ℚ) (qn minSim : ℚ) :
    ∀ (rows : List SearchRow) (l : List SearchResult),
    searchLoop sqrtQ qv qn minSim rows = .ok l →
    l.length = rows.countP (rowPasses sqrtQ qv qn minSim)
  | [], l, h => by
    cases h; rfl
  | r :: rest, l, h => by
    unfold searchLoop at h
    cases hc : cosine_similarity sqrtQ qv r.vector (some qn) (some r.norm) with
    | error e => rw [hc] at h; exact absurd h (by simp)
    | ok sim =>
      rw [hc] at h
      cases ht : searchLoop sqrtQ qv qn minSim rest with
      | error e => rw [ht] at h; exact absurd h (by simp)
      | ok tail =>
        rw [ht] at h
        have htail := searchLoop_ok_length sqrtQ qv qn minSim rest tail ht
        have hl : l = if sim < minSim then tail else mkResult r sim :: tail :=
          (Except.ok.inj h).symm
        rw [List.countP_cons]
        have hrp : rowPasses sqrtQ qv qn minSim r = !decide (sim < minSim) := by
          unfold rowPasses
          rw [hc]
        by_cases hlt : sim < minSim
        · rw [hl, if_pos hlt, htail, hrp]
          simp [hlt]
        · rw [hl, if_neg hlt, List.length_cons, htail, hrp]
          simp [hlt]

theorem searchLoop_ok_mem (sqrtQ : ℚ → ℚ) (qv : List ℚ) (qn minSim : ℚ) :
    ∀ (rows : List SearchRow) (l : List SearchResult),
    searchLoop sqrtQ qv qn minSim rows = .ok l →
    ∀ res ∈ l, ∃ r ∈ rows, ∃ sim : ℚ,
      cosine_similarity sqrtQ qv r.vector (some qn) (some r.norm) = .ok sim ∧
      ¬ sim < minSim ∧ res = mkResult r sim
  | [], l, h => by
    cases h; intro res hres; exact absurd hres (List.not_mem_nil res)
  | r :: rest, l, h => by
    unfold searchLoop at h
    cases hc : cosine_similarity sqrtQ qv r.vector (some qn) (some r.norm) with
    | error e => rw [hc] at h; exact absurd h (by simp)
    | ok sim =>
      rw [hc] at h
      cases ht : searchLoop sqrtQ qv qn minSim rest with
      | error e => rw [ht] at h; exact absurd h (by simp)
      | ok tail =>
        rw [ht] at h
        have htail := searchLoop_ok_mem sqrtQ qv qn minSim rest tail ht
        have hl : l = if sim < minSim then tail else mkResult r sim :: tail :=
          (Except.ok.inj h).symm
        intro res hres
        by_cases hlt : sim < minSim
        · rw [hl, if_pos hlt] at hres
          obtain ⟨r', hr', hrest⟩ := htail res hres
          exact ⟨r', List.mem_cons_of_mem r hr', hrest⟩
        · rw [hl, if_neg hlt] at hres
          rcases List.mem_cons.1 hres with rfl | hmem
          · exact ⟨r, List.mem_cons_self r rest, sim, hc, hlt, rfl⟩
          · obtain ⟨r', hr', hrest⟩ := htail res hmem
            exact ⟨r', List.mem_cons_of_mem r hr', hrest⟩

/-- Eliminating a successful search into its loop output and the final
sort-and-truncate step. -/
theorem search_ok_elim (sqrtQ : ℚ → ℚ) (rows : List SearchRow)
    (qv : List ℚ) (k : Nat) (doc : Option Nat) (minSim : ℚ)
    (out : List SearchResult)
    (h : search_similar_articles sqrtQ rows qv k doc minSim = .ok out) :
    ∃ res, searchLoop sqrtQ qv (sqrtQ ((qv.map (fun x => x * x)).sum)) minSim
        (docFilter rows doc) = .ok res ∧
      out = ((res.insertionSort
        (fun a b : SearchResult => b.similarity ≤ a.similarity)).take k) := by
  simp only [search_similar_articles] at h
  cases hl : searchLoop sqrtQ qv (sqrtQ ((qv.map (fun x => x * x)).sum)) minSim
      (docFilter rows doc) with
  | error e => rw [hl] at h; simp at h
  | ok res =>
    rw [hl] at h
    exact ⟨res, rfl, (Except.ok.inj h).symm⟩

/-- C6: for a fixed query vector, `top_k` and document scope, raising
`min_similarity` never increases the number of returned results. -/
theorem C6_threshold_monotone (sqrtQ : ℚ → ℚ) (rows : List SearchRow)
    (qv : List ℚ) (k : Nat) (doc : Option Nat) (m1 m2 : ℚ) (hm : m1 ≤ m2)
    (l1 l2 : List SearchResult)
    (h1 : search_similar_articles sqrtQ rows qv k doc m1 = .ok l1)
    (h2 : search_similar_articles sqrtQ rows qv k doc m2 = .ok l2) :
    l2.length ≤ l1.length := by
  obtain ⟨res1, hr1, ho1⟩ := search_ok_elim sqrtQ rows qv k doc m1 l1 h1
  obtain ⟨res2, hr2, ho2⟩ := search_ok_elim sqrtQ rows qv k doc m2 l2 h2
  have hc1 := searchLoop_ok_length sqrtQ qv _ m1 _ res1 hr1
  have hc2 := searchLoop_ok_length sqrtQ qv _ m2 _ res2 hr2
  have hcount : (docFilter rows doc).countP
      (rowPasses sqrtQ qv (sqrtQ ((qv.map (fun x => x * x)).sum)) m2) ≤
    (docFilter rows doc).countP
      (rowPasses sqrtQ qv (sqrtQ ((qv.map (fun x => x * x)).sum)) m1) := by
    apply List.countP_mono_left
    intro r _ hp
    unfold rowPasses at hp ⊢
    cases hc : cosine_similarity sqrtQ qv r.vector
        (some (sqrtQ ((qv.map (fun x => x * x)).sum))) (some r.norm) with
    | error e => rw [hc] at hp; simp at hp
    | ok s =>
      rw [hc] at hp
      have hp' : (!decide (s < m2)) = true := hp
      show (!decide (s < m1)) = true
      simp only [Bool.not_eq_true', decide_eq_false_iff_not] at hp' ⊢
      exact fun hlt => hp' (lt_of_lt_of_le hlt hm)
  rw [ho1, ho2]
  rw [List.length_take, List.length_take,
    List.length_insertionSort, List.length_insertionSort, hc1, hc2]
  exact min_le_min (le_refl k) hcount

/-- The two-row store of the concrete search scenarios: stored norms are
precomputed to 1, similarities with the query `[1]` are the dot products
0.3 and 0.7. -/
def c6Rows : List SearchRow :=
  [{ article_id := 1, document_id := 1, vector := [3/10], norm := 1,
     article_number := "1", content := "x", tag_primary := none, tags := [] },
   { article_id := 2, document_id := 1, vector := [7/10], norm := 1,
     article_number := "2", content := "y", tag_primary := none, tags := [] }]

/-- Witness for C6: with threshold 0 both rows are returned, with
threshold 1/2 only one is; the count never grows. -/
theorem C6_witness :
    ∃ l1 l2, search_similar_articles id c6Rows [1] 10 none 0 = .ok l1 ∧
      search_similar_articles id c6Rows [1] 10 none (1/2) = .ok l2 ∧
      l1.length = 2 ∧ l2.length = 1 ∧ l2.length ≤ l1.length := by
  have h1 : search_similar_articles id c6Rows [1] 10 none 0 =
      .ok [mkResult (c6Rows.get ⟨1, by decide⟩) (7/10),
           mkResult (c6Rows.get ⟨0, by decide⟩) (3/10)] := by
    with_unfolding_all rfl
  have h2 : search_similar_articles id c6Rows [1] 10 none (1/2) =
      .ok [mkResult (c6Rows.get ⟨1, by decide⟩) (7/10)] := by
    with_unfolding_all rfl
  exact ⟨_, _, h1, h2, rfl, rfl,
    C6_threshold_monotone id c6Rows [1] 10 none 0 (1/2) (by norm_num)
      _ _ h1 h2⟩

/-- C10 (amended): in every successful search, each returned record's
reported similarity is the true cosine similarity of its row rounded to 4
decimal places; the `min_similarity` threshold was applied to the
unrounded value; the output is ranked by the rounded value (so two
records whose true similarities *round to the same 4-decimal value* carry
equal similarity keys and are exact ties for the ranking); and the top-K
cut keeps `min k` of the rows that passed the unrounded threshold. -/
theorem C10_rounded_ranking (sqrtQ : ℚ → ℚ) (rows : List SearchRow)
    (qv : List ℚ) (k : Nat) (doc : Option Nat) (minSim : ℚ)
    (out : List SearchResult)
    (hok : search_similar_articles sqrtQ rows qv k doc minSim = .ok out) :
    (∀ res ∈ out, ∃ r ∈ docFilter rows doc, ∃ sim : ℚ,
        cosine_similarity sqrtQ qv r.vector
          (some (sqrtQ ((qv.map (fun x => x * x)).sum))) (some r.norm) =
          .ok sim ∧
        ¬ sim < minSim ∧ res = mkResult r sim ∧
        res.similarity = round4 sim) ∧
    List.Pairwise (fun x y : SearchResult => y.similarity ≤ x.similarity)
      out ∧
    out.length = min k ((docFilter rows doc).countP
      (rowPasses sqrtQ qv (sqrtQ ((qv.map (fun x => x * x)).sum))
        minSim)) := by
  obtain ⟨res, hloop, hout⟩ :=
    search_ok_elim sqrtQ rows qv k doc minSim out hok
  haveI : IsTotal SearchResult (fun a b => b.similarity ≤ a.similarity) :=
    ⟨fun a b => le_total _ _⟩
  haveI : IsTrans SearchResult (fun a b => b.similarity ≤ a.similarity) :=
    ⟨fun _ _ _ h1 h2 => le_trans h2 h1⟩
  refine ⟨?_, ?_, ?_⟩
  · intro r0 hr0
    have h1 : r0 ∈ res := by
      have h2 := List.Sublist.mem (hout ▸ hr0) (List.take_sublist k _)
      exact (List.perm_insertionSort _ _).mem_iff.1 h2
    obtain ⟨r, hrmem, sim, hcs, hlt, heq⟩ :=
      searchLoop_ok_mem sqrtQ qv _ minSim _ res hloop r0 h1
    exact ⟨r, hrmem, sim, hcs, hlt, heq, by rw [heq]; rfl⟩
  · rw [hout]
    exact List.Pairwise.sublist (List.take_sublist k _)
      (List.sorted_insertionSort _ _)
  · rw [hout, List.length_take, List.length_insertionSort,
      searchLoop_ok_length sqrtQ qv _ minSim _ res hloop]

/-- The search output at the C10 witness instance. -/
def c10Out : List SearchResult :=
  [mkResult (c6Rows.get ⟨1, by decide⟩) (7 / 10),
   mkResult (c6Rows.get ⟨0, by decide⟩) (3 / 10)]

/-- Witness for C10's amended theorem at the concrete two-row search. -/
theorem C10_witness :
    (∀ res ∈ c10Out, ∃ r ∈ docFilter c6Rows none, ∃ sim : ℚ,
        cosine_similarity id [1] r.vector
          (some (id ((([1] : List ℚ).map (fun x => x * x)).sum)))
          (some r.norm) = .ok sim ∧
        ¬ sim < 0 ∧ res = mkResult r sim ∧
        res.similarity = round4 sim) ∧
    List.Pairwise (fun x y : SearchResult => y.similarity ≤ x.similarity)
      c10Out ∧
    c10Out.length = min 10 ((docFilter c6Rows none).countP
      (rowPasses id [1] (id ((([1] : List ℚ).map (fun x => x * x)).sum))
        0)) :=
  C10_rounded_ranking id c6Rows [1] 10 none 0 c10Out
    (by with_unfolding_all rfl)

/-- The two-row store of the C10 counterexample: true similarities
0.1234 and 0.12348 agree in their first four decimal places and differ
by less than 10⁻⁴. -/
def c10Rows : List SearchRow :=
  [{ article_id := 1, document_id := 1, vector := [1234/10000], norm := 1,
     article_number := "1", content := "x", tag_primary := none,
     tags := [] },
   { article_id := 2, document_id := 1, vector := [12348/100000], norm := 1,
     article_number := "2", content := "y", tag_primary := none,
     tags := [] }]

/-- C10 (counterexample): the two rows' true similarities differ only
beyond the fourth decimal place (they differ by less than 10⁻⁴ and have
the same first four decimal digits), yet the search does *not* treat them
as exact ties: their reported similarities differ (0.1235 vs 0.1234) and
the second row is ranked strictly above the first. -/
theorem C10_counterexample :
    search_similar_articles id c10Rows [1] 10 none 0 =
      .ok [mkResult (c10Rows.get ⟨1, by decide⟩) (12348 / 100000),
           mkResult (c10Rows.get ⟨0, by decide⟩) (1234 / 10000)] ∧
    |(12348 : ℚ) / 100000 - 1234 / 10000| < 1 / 10000 ∧
    (⌊((12348 : ℚ) / 100000) * 10000⌋ = ⌊((1234 : ℚ) / 10000) * 10000⌋) ∧
    round4 (12348 / 100000) ≠ round4 (1234 / 10000) := by
  refine ⟨by with_unfolding_all rfl, ?_, ?_, ?_⟩
  · with_unfolding_all decide
  · with_unfolding_all decide
  · with_unfolding_all decide

theorem find?_decomp {α : Type} {p : α → Bool} :
    ∀ {l : List α} {a : α}, l.find? p = some a →
    ∃ l₁ l₂, l = l₁ ++ a :: l₂ ∧ ∀ x ∈ l₁, p x = false
  | [], a, h => absurd h (by simp)
  | b :: bs, a, h => by
    cases hb : p b with
    | true =>
      rw [List.find?_cons_of_pos _ hb] at h
      cases Option.some.inj h
      exact ⟨[], bs, rfl, by simp⟩
    | false =>
      rw [List.find?_cons_of_neg _ (by simp [hb])] at h
      obtain ⟨l₁, l₂, hdec, hfail⟩ := find?_decomp h
      refine ⟨b :: l₁, l₂, by rw [hdec]; rfl, ?_⟩
      intro x hx
      rcases List.mem_cons.1 hx with rfl | hx2
      · exact hb
      · exact hfail x hx2

theorem sortedSuffixes_pairwise :
    List.Pairwise (fun a b : String => b.length ≤ a.length)
      sortedSuffixes := by
  haveI : IsTotal String (fun a b : String => b.length ≤ a.length) :=
    ⟨fun a b => le_total b.length a.length⟩
  haveI : IsTrans String (fun a b : String => b.length ≤ a.length) :=
    ⟨fun _ _ _ h1 h2 => le_trans h2 h1⟩
  exact List.sorted_insertionSort _ _

theorem sortedSuffixes_perm : sortedSuffixes.Perm SUFFIXES :=
  List.perm_insertionSort _ _

/-- The stable longest-first sort leaves each equal-length group of
suffixes exactly as it is in the declaration order. -/
theorem sortedSuffixes_filter_len (n : Nat) :
    sortedSuffixes.filter (fun s => s.length == n) =
      SUFFIXES.filter (fun s => s.length == n) := by
  have hA : (SUFFIXES.filter (fun s => s.length == n)).Pairwise
      (fun a b : String => b.length ≤ a.length) := by
    apply List.pairwise_of_forall_mem_list
    intro a ha b hb
    have ha' := (List.mem_filter.1 ha).2
    have hb' := (List.mem_filter.1 hb).2
    simp only [beq_iff_eq] at ha' hb'
    rw [ha', hb']
  have hsub : (SUFFIXES.filter (fun s => s.length == n)).Sublist
      sortedSuffixes :=
    List.sublist_insertionSort hA (List.filter_sublist SUFFIXES)
  have hsub2 := List.Sublist.filter (fun s : String => s.length == n) hsub
  rw [List.filter_eq_self.2 (fun a ha => (List.mem_filter.1 ha).2)]
    at hsub2
  have hperm : (sortedSuffixes.filter (fun s => s.length == n)).Perm
      (SUFFIXES.filter (fun s => s.length == n)) :=
    sortedSuffixes_perm.filter _
  exact (List.Sublist.eq_of_length hsub2 hperm.length_eq.symm).symm

/-- C3: `stem` lowercases, maps `й` to `и`, strips non-alphabetic edges
(all inside `normalizeWord`, the translation of lines 30–33 of the
source), and then removes at most one suffix: when no listed suffix
matches with at least 3 characters left, the normalised word is returned
unchanged; otherwise the removed suffix is a longest matching one, and
among the matching suffixes of that length it is the first in declaration
order.  `stem` is total and maps the empty string to itself. -/
theorem C3_stem_spec (word : String) :
    stem "" = "" ∧
    ((∀ suf ∈ SUFFIXES, suffixMatches (normalizeWord word) suf = false) →
      stem word = String.mk (normalizeWord word)) ∧
    ((∃ suf ∈ SUFFIXES, suffixMatches (normalizeWord word) suf = true) →
      ∃ suf ∈ SUFFIXES, suffixMatches (normalizeWord word) suf = true ∧
        stem word = String.mk ((normalizeWord word).take
          ((normalizeWord word).length - suf.length)) ∧
        (∀ s ∈ SUFFIXES, suffixMatches (normalizeWord word) s = true →
          s.length ≤ suf.length) ∧
        (SUFFIXES.filter (fun s => suffixMatches (normalizeWord word) s &&
          s.length == suf.length)).head? = some suf) := by
  refine ⟨by decide, ?_, ?_⟩
  · intro hall
    have hfind : sortedSuffixes.find?
        (fun suf => suffixMatches (normalizeWord word) suf) = none := by
      apply List.find?_eq_none.2
      intro x hx
      simp [hall x (sortedSuffixes_perm.mem_iff.1 hx)]
    simp only [stem]
    rw [hfind]
  · rintro ⟨suf0, hmem0, hmatch0⟩
    cases hf : sortedSuffixes.find?
        (fun suf => suffixMatches (normalizeWord word) suf) with
    | none =>
      have hn := List.find?_eq_none.1 hf suf0
        (sortedSuffixes_perm.symm.mem_iff.1 hmem0)
      exact absurd hmatch0 (by simpa using hn)
    | some suf =>
      have hmatch : suffixMatches (normalizeWord word) suf = true :=
        List.find?_some hf
      have hmemS : suf ∈ SUFFIXES :=
        sortedSuffixes_perm.mem_iff.1 (List.mem_of_find?_eq_some hf)
      obtain ⟨l₁, l₂, hdecomp, hfail⟩ := find?_decomp hf
      have hlong : ∀ s ∈ SUFFIXES,
          suffixMatches (normalizeWord word) s = true →
          s.length ≤ suf.length := by
        intro s hsS hsM
        have hs2 : s ∈ sortedSuffixes :=
          sortedSuffixes_perm.symm.mem_iff.1 hsS
        rw [hdecomp] at hs2
        rcases List.mem_append.1 hs2 with hL | hR
        · exact absurd hsM (by simp [hfail s hL])
        · rcases List.mem_cons.1 hR with rfl | h3
          · exact le_refl _
          · have hpw := sortedSuffixes_pairwise
            rw [hdecomp] at hpw
            exact (List.pairwise_cons.1
              (List.pairwise_append.1 hpw).2.1).1 s h3
      refine ⟨suf, hmemS, hmatch, ?_, hlong, ?_⟩
      · simp only [stem]
        rw [hf]
      · have hcomm : SUFFIXES.filter
            (fun s => suffixMatches (normalizeWord word) s &&
              s.length == suf.length) =
            (SUFFIXES.filter (fun s => s.length == suf.length)).filter
              (fun s => suffixMatches (normalizeWord word) s) :=
          (List.filter_filter _ _).symm
        rw [hcomm, ← sortedSuffixes_filter_len suf.length, hdecomp,
          List.filter_append]
        have hstep : List.filter (fun s : String => s.length == suf.length)
            (suf :: l₂) =
            suf :: List.filter (fun s : String => s.length == suf.length)
              l₂ :=
          @List.filter_cons_of_pos String
            (fun s : String => s.length == suf.length) suf l₂ (by simp)
        rw [hstep, List.filter_append]
        have hstep2 : List.filter
            (fun s => suffixMatches (normalizeWord word) s)
            (suf :: List.filter
              (fun s : String => s.length == suf.length) l₂) =
            suf :: List.filter
              (fun s => suffixMatches (normalizeWord word) s)
              (List.filter (fun s : String => s.length == suf.length)
                l₂) :=
          @List.filter_cons_of_pos String
            (fun s => suffixMatches (normalizeWord word) s) suf _ hmatch
        rw [hstep2]
        have hnil : (l₁.filter
            (fun s => s.length == suf.length)).filter
            (fun s => suffixMatches (normalizeWord word) s) = [] := by
          apply List.filter_eq_nil_iff.2
          intro a ha
          simp [hfail a (List.mem_filter.1 ha).1]
        rw [hnil]
        rfl

/-- Witness for C3: the no-suffix branch at `"иск"` (too short for any
listed ending) and the suffix branch at `"щета"`, where `"та"` matches
but would leave only two characters, so the single-character suffix
`"а"` is removed instead. -/
theorem C3_witness :
    stem "иск" = String.mk (normalizeWord "иск") ∧
    (∃ suf ∈ SUFFIXES, suffixMatches (normalizeWord "щета") suf = true ∧
      stem "щета" = String.mk ((normalizeWord "щета").take
        ((normalizeWord "щета").length - suf.length)) ∧
      (∀ s ∈ SUFFIXES, suffixMatches (normalizeWord "щета") s = true →
        s.length ≤ suf.length) ∧
      (SUFFIXES.filter (fun s => suffixMatches (normalizeWord "щета") s &&
        s.length == suf.length)).head? = some suf) :=
  ⟨(C3_stem_spec "иск").2.1 (by decide),
   (C3_stem_spec "щета").2.2 ⟨"а", by decide, by decide⟩⟩
